import Mathlib

/-!
Verification development for the NotepadNext URL-detection decorator
(`src/NotepadNext/decorators/URLFinder.cpp`) and the language detection entry
points of `src/NotepadNext/NotepadNextApplication.cpp`.

The editor (Scintilla) API that those files call is not part of the reviewed
sources; each such operation is modelled from the specification's description
of the TextBuffer/View API, and is marked `Modelled from the spec:` in its
doc comment.  Everything else is a direct shallow embedding of the C++ (and
embedded Lua) source.
-/

namespace NotepadNext

/-- A word character for the QRegExp word-boundary assertion `\b`:
`[A-Za-z0-9_]` (ASCII). -/
def isWordChar (c : Char) : Bool :=
  c.isAlpha || c.isDigit || c = '_'

/-- Character class `[-a-zA-Z0-9@:%._\+~#=]` — the host part of the URL
regex at URLFinder.cpp line 69. -/
def isHostChar (c : Char) : Bool :=
  c.isAlpha || c.isDigit || c = '-' || c = '@' || c = ':' || c = '%' || c = '.' ||
    c = '_' || c = '+' || c = '~' || c = '#' || c = '='

/-- Character class `[a-zA-Z0-9()]` — the TLD part of the URL regex. -/
def isTldChar (c : Char) : Bool :=
  c.isAlpha || c.isDigit || c = '(' || c = ')'

/-- Character class `[-a-zA-Z0-9()@:%_\+.~#?&\/=]` — the path part of the
URL regex. -/
def isPathChar (c : Char) : Bool :=
  c.isAlpha || c.isDigit || c = '-' || c = '(' || c = ')' || c = '@' || c = ':' ||
    c = '%' || c = '_' || c = '+' || c = '.' || c = '~' || c = '#' || c = '?' ||
    c = '&' || c = '/' || c = '='

/-- Length of the maximal run of characters satisfying `p` at the front of `cs`. -/
def runLen (p : Char → Bool) (cs : List Char) : Nat :=
  (cs.takeWhile p).length

/-- Whether the character at index `i` of `cs` exists and is a word character. -/
def wordAt (cs : List Char) (i : Nat) : Bool :=
  match cs[i]? with
  | some c => isWordChar c
  | none => false

/-- The regex word-boundary assertion `\b` holding at position `i` of `cs`
(positions beyond the text count as non-word). -/
def boundaryAt (cs : List Char) (i : Nat) : Bool :=
  (if i = 0 then false else wordAt cs (i - 1)) != wordAt cs i

/-- The scheme part `https?://` matched at index `i`: the optional `s` is
greedy, and since `s` and `:` differ the backtracking is equivalent to trying
the literal prefixes `https://` then `http://`.  Returns the matched length. -/
def schemeAt (cs : List Char) (i : Nat) : Option Nat :=
  if "https://".toList.isPrefixOf (cs.drop i) then some 8
  else if "http://".toList.isPrefixOf (cs.drop i) then some 7
  else none

/-- Greedy `[a-zA-Z0-9()]{1,6}` followed by `\b`, the TLD chars starting at
index `k`: try the candidate length from the argument downwards, accepting the
largest one with a word boundary right after.  The argument is bounded by the
TLD-character run length, so every candidate consists of TLD characters. -/
def tryTld (cs : List Char) (k : Nat) : Nat → Option Nat
  | 0 => none
  | b + 1 => if boundaryAt cs (k + b + 1) then some (b + 1) else tryTld cs k b

/-- The TLD part `\.…` continuation: the greedy length of `[a-zA-Z0-9()]{1,6}\b`
at index `k`. -/
def tldAt (cs : List Char) (k : Nat) : Option Nat :=
  tryTld cs k (min 6 (runLen isTldChar (cs.drop k)))

/-- Greedy-with-backtracking `[-a-zA-Z0-9@:%._\+~#=]{1,256}\.[a-zA-Z0-9()]{1,6}\b`
at index `j`: try the host length from the argument downwards; for each, demand
a literal `.` then a TLD match.  Returns the index just past the TLD. -/
def tryHost (cs : List Char) (j : Nat) : Nat → Option Nat
  | 0 => none
  | a + 1 =>
    if cs[j + a + 1]? = some '.' then
      match tldAt cs (j + a + 2) with
      | some b => some (j + a + 2 + b)
      | none => tryHost cs j a
    else tryHost cs j a

/-- Host+TLD continuation at index `j`, with the host length capped at 256 and
at the host-character run length. -/
def hostTldAt (cs : List Char) (j : Nat) : Option Nat :=
  tryHost cs j (min 256 (runLen isHostChar (cs.drop j)))

/-- Length of the match of the URLFinder regex
`\bhttps?://[-a-zA-Z0-9@:%._\+~#=]{1,256}\.[a-zA-Z0-9()]{1,6}\b(?:[-a-zA-Z0-9()@:%_\+.~#?&\/=]*)`
anchored at index `i` of `cs`, with QRegExp's greedy-with-backtracking
semantics. -/
def matchFrom (cs : List Char) (i : Nat) : Option Nat :=
  if boundaryAt cs i then
    match schemeAt cs i with
    | some sl =>
      match hostTldAt cs (i + sl) with
      | some endTld => some (endTld + runLen isPathChar (cs.drop endTld) - i)
      | none => none
    | none => none
  else none

/-- Leftmost-match search, as QRegExp::indexIn performs: the smallest index
with a match, together with the match length. -/
def firstMatchAux (cs : List Char) : Nat → Nat → Option (Nat × Nat)
  | _, 0 => none
  | i, fuel + 1 =>
    match matchFrom cs i with
    | some len => some (i, len)
    | none => firstMatchAux cs (i + 1) (fuel)

/-- QRegExp::indexIn on the URLFinder regex: position and length of the
leftmost match, if any. -/
def regexFirstMatch (cs : List Char) : Option (Nat × Nat) :=
  firstMatchAux cs 0 (cs.length + 1)

/-- QRegExp::capturedTexts after a single indexIn call (URLFinder.cpp line 71):
the pattern has no capturing groups, so the list holds exactly the whole
match — an empty string when nothing matched. -/
def capturedTexts (cs : List Char) : List (List Char) :=
  match regexFirstMatch cs with
  | some (i, len) => [(cs.drop i).take len]
  | none => [[]]

/-- QStringList::removeDuplicates: keep the first occurrence of each value. -/
def removeDuplicates (seen : List (List Char)) : List (List Char) → List (List Char)
  | [] => []
  | x :: xs =>
    if x ∈ seen then removeDuplicates seen xs
    else x :: removeDuplicates (x :: seen) xs

/-- The matched URL texts the scan collects for one line of text
(URLFinder.cpp lines 69–73): one indexIn call, capturedTexts, duplicate
removal, and removal of empty strings. -/
def matchedTexts (cs : List Char) : List (List Char) :=
  (removeDuplicates [] (capturedTexts cs)).filter (fun t => !t.isEmpty)

/-- Modelled from the spec: the per-line data of the TextBuffer — the line's
text (without its end-of-line), its visibility, the number of display rows it
wraps onto, its Scintilla fold-level word, and whether its fold is expanded. -/
structure LineInfo where
  text : List Char
  visible : Bool
  wrapCount : Nat
  foldLevel : Nat
  foldExpanded : Bool
  deriving Repr, DecidableEq

instance : Inhabited LineInfo := ⟨⟨[], true, 1, 0, true⟩⟩

/-- Modelled from the spec: the TextBuffer with its scroll/viewport window —
an ordered sequence of lines, the first visible display row, and the number
of complete lines on screen. -/
structure Editor where
  lines : List LineInfo
  firstVisibleLine : Nat
  linesOnScreen : Nat
  deriving Repr, DecidableEq

/-- Number of document lines. -/
def lineCount (ed : Editor) : Nat :=
  ed.lines.length

/-- The line record at document line `l` (a default for out-of-range queries,
which the scan never makes). -/
def lineAt (ed : Editor) (l : Nat) : LineInfo :=
  ed.lines.getD l default

/-- Modelled from the spec: line-visibility query of the view API. -/
def lineVisible (ed : Editor) (l : Nat) : Bool :=
  (lineAt ed l).visible

/-- Modelled from the spec: wrap-count query — the number of display rows
document line `l` occupies. -/
def wrapCount (ed : Editor) (l : Nat) : Nat :=
  (lineAt ed l).wrapCount

/-- Modelled from the spec: the Scintilla fold-level word of line `l`. -/
def foldLevel (ed : Editor) (l : Nat) : Nat :=
  (lineAt ed l).foldLevel

/-- Modelled from the spec: whether the fold at line `l` is expanded. -/
def foldExpanded (ed : Editor) (l : Nat) : Bool :=
  (lineAt ed l).foldExpanded

/-- The numeric part of a fold-level word (Scintilla SC_FOLDLEVELNUMBERMASK,
`0x0FFF`). -/
def levelNum (fl : Nat) : Nat :=
  fl % 4096

/-- The SC_FOLDLEVELHEADERFLAG bit (`0x2000`) of a fold-level word, as the
code tests it at URLFinder.cpp line 104. -/
def isFoldHeader (fl : Nat) : Bool :=
  fl / 8192 % 2 = 1

/-- Helper for `lastChild`: from candidate `k`, keep advancing while the next
line exists and has a strictly greater fold-level number than `lvl`. -/
def lastChildAux (ed : Editor) (lvl : Nat) : Nat → Nat → Nat
  | k, 0 => k
  | k, fuel + 1 =>
    if k + 1 < lineCount ed && lvl < levelNum (foldLevel ed (k + 1)) then
      lastChildAux ed lvl (k + 1) fuel
    else k

/-- Modelled from the spec: the "last child line of fold starting at line L"
query (Scintilla SCI_GETLASTCHILD with level −1) — the last line of the
maximal run after `l` whose fold-level numbers all exceed line `l`'s. -/
def lastChild (ed : Editor) (l : Nat) : Nat :=
  lastChildAux ed (levelNum (foldLevel ed l)) l (lineCount ed)

/-- Modelled from the spec: map a display row to its document line — walk the
lines, skipping invisible ones and counting each visible line's wrap rows. -/
def docLineFromVisibleAux : List LineInfo → Nat → Nat → Nat
  | [], _, idx => idx
  | li :: rest, v, idx =>
    if li.visible then
      if v < li.wrapCount then idx
      else docLineFromVisibleAux rest (v - li.wrapCount) (idx + 1)
    else docLineFromVisibleAux rest v (idx + 1)

/-- Modelled from the spec: document line of display row `v`. -/
def docLineFromVisible (ed : Editor) (v : Nat) : Nat :=
  docLineFromVisibleAux ed.lines v 0

/-- Modelled from the spec: the buffer's character sequence — the line texts
joined by one end-of-line character each. -/
def fullText (ed : Editor) : List Char :=
  List.intercalate ['\n'] (ed.lines.map LineInfo.text)

/-- Modelled from the spec: line→offset conversion — the buffer offset of the
start of document line `l`. -/
def positionFromLine (ed : Editor) (l : Nat) : Nat :=
  ((ed.lines.take l).map (fun li => li.text.length + 1)).sum

/-- Modelled from the spec: the buffer offset of the end of document line `l`
(before its end-of-line). -/
def lineEndPosition (ed : Editor) (l : Nat) : Nat :=
  positionFromLine ed l + (lineAt ed l).text.length

/-- Modelled from the spec: raw text-range retrieval over offsets `[a, b)`. -/
def textRange (ed : Editor) (a b : Nat) : List Char :=
  ((fullText ed).drop a).take (b - a)

/-- Modelled from the spec: single-character lookup at a buffer offset (the
NUL character for out-of-range offsets). -/
def charAt (ed : Editor) (pos : Nat) : Char :=
  ((fullText ed)[pos]?).getD (Char.ofNat 0)

/-- Whether `needle` occurs in `hay` starting at offset `p`. -/
def occursAt (hay needle : List Char) (p : Nat) : Bool :=
  needle.isPrefixOf (hay.drop p)

/-- Helper for `findText`: scan candidate start offsets upward from `i`; a
match must lie entirely within the range, i.e. end at or before `stop`. -/
def findTextAux (hay needle : List Char) (stop : Nat) : Nat → Nat → Option (Nat × Nat)
  | 0, _ => none
  | fuel + 1, i =>
    if stop < i + needle.length then none
    else if occursAt hay needle i then some (i, i + needle.length)
    else findTextAux hay needle stop fuel (i + 1)

/-- Modelled from the spec: text-search-in-range (SCI_FINDTEXT with
SCFIND_MATCHCASE) — the first case-sensitive occurrence of `needle` that
starts at or after `start` and ends at or before `stop`, as its
`(start, end)` offsets. -/
def findText (ed : Editor) (needle : List Char) (start stop : Nat) : Option (Nat × Nat) :=
  findTextAux (fullText ed) needle stop (stop + 1) start

/-- The bracket/quote pair test of URLFinder.cpp lines 88–91, applied to the
two characters the code reads. -/
def pairMatch (p n : Char) : Bool :=
  (p = '(' && n = ')') || (p = '[' && n = ']') || (p = '<' && n = '>') ||
    (p = '"' && n = '"')

/-- The endpoint adjustment of URLFinder.cpp lines 85–93: the code reads the
character before the occurrence and the LAST character of the occurrence
(`charAt(endUrl - 1)`), and shrinks the end by one when they form a pair. -/
def trimOcc (ed : Editor) (se : Nat × Nat) : Nat × Nat :=
  if pairMatch (charAt ed (se.1 - 1)) (charAt ed (se.2 - 1)) then (se.1, se.2 - 1)
  else se

/-- The sequence of occurrences the do-while loop at URLFinder.cpp lines
77–97 locates: each search starts at the end of the previously found
occurrence, until no further occurrence lies in the range. -/
def locatedOccs (ed : Editor) (needle : List Char) (stop : Nat) : Nat → Nat → List (Nat × Nat)
  | 0, _ => []
  | fuel + 1, i =>
    match findText ed needle i stop with
    | none => []
    | some (s, e) => (s, e) :: locatedOccs ed needle stop fuel e

/-- The indicator ranges the do-while loop at URLFinder.cpp lines 75–98 fills
for one matched text: every located occurrence whose start offset is positive
is painted, after the bracket/quote trim. -/
def annotateLoop (ed : Editor) (needle : List Char) (stop : Nat) : Nat → Nat → List (Nat × Nat)
  | 0, _ => []
  | fuel + 1, i =>
    match findText ed needle i stop with
    | none => []
    | some (s, e) =>
      (if 0 < s then [trimOcc ed (s, e)] else []) ++ annotateLoop ed needle stop fuel e

/-- Processing of one visible document line (URLFinder.cpp lines 65–98):
extract the line text, run the pattern matcher, and run the annotate loop for
each matched text. -/
def processLine (ed : Editor) (l : Nat) : List (Nat × Nat) :=
  ((matchedTexts (textRange ed (positionFromLine ed l) (lineEndPosition ed l))).map
    (fun t => annotateLoop ed t (lineEndPosition ed l) (lineEndPosition ed l + 1)
      (positionFromLine ed l))).flatten

/-- The scan loop of URLFinder.cpp lines 58–110: while the display-row budget
is not negative and lines remain, skip invisible lines, process visible ones
(recording the line index and the ranges painted), decrement the budget by
the line's wrap count, and jump past collapsed folds. -/
def scanAux (ed : Editor) : Nat → Nat → Int → List (Nat × List (Nat × Nat))
  | 0, _, _ => []
  | fuel + 1, cur, budget =>
    if 0 ≤ budget ∧ cur < lineCount ed then
      if !lineVisible ed cur then scanAux ed fuel (cur + 1) budget
      else
        (cur, processLine ed cur) ::
          scanAux ed fuel
            (if isFoldHeader (foldLevel ed cur) && !foldExpanded ed cur then
              lastChild ed cur + 1
            else cur + 1)
            (budget - (wrapCount ed cur : Int))
    else []

/-- The document line the scan starts at (URLFinder.cpp line 55). -/
def startLine (ed : Editor) : Nat :=
  docLineFromVisible ed ed.firstVisibleLine

/-- One full scan pass (URLFinder::findURLs), as the per-line list of
`(line, painted ranges)`. -/
def scanResult (ed : Editor) : List (Nat × List (Nat × Nat)) :=
  scanAux ed (lineCount ed + 1) (startLine ed) (ed.linesOnScreen : Int)

/-- The document lines a scan pass processes (the viewport-aware line
iterator's yield sequence). -/
def visitedLines (ed : Editor) : List Nat :=
  (scanResult ed).map Prod.fst

/-- The indicator ranges one full scan pass paints. -/
def findURLs (ed : Editor) : List (Nat × Nat) :=
  ((scanResult ed).map Prod.snd).flatten

/-- Editor state including the indicator channel's range set. -/
structure EditorS where
  view : Editor
  indic : List (Nat × Nat)
  deriving Repr, DecidableEq

/-- The whole-buffer indicator clear of URLFinder.cpp line 53
(`indicatorClearRange(0, length)` removes every range). -/
def indicatorClearAll (_r : List (Nat × Nat)) : List (Nat × Nat) :=
  []

/-- A full scan pass as a state transformer: clear every prior indicator
range over the whole buffer, then paint the recomputed ranges. -/
def runScan (s : EditorS) : EditorS :=
  { s with indic := indicatorClearAll s.indic ++ findURLs s.view }

/-- The notification events the decorator receives (spec §6's discriminated
change-notification feed), with the flags URLFinder::notify inspects. -/
inductive Notif where
  | updateUI (vscrollFlag : Bool)
  | modified (insertFlag deleteFlag : Bool)
  | zoom
  | indicatorClick (ctrlFlag : Bool) (pos : Nat)
  | other
  deriving Repr, DecidableEq

/-- What the decorator does in response to a notification. -/
inductive DecoratorAction where
  | restartTimer
  | click (pos : Nat)
  | noOp
  deriving Repr, DecidableEq

/-- The dispatch of URLFinder::notify (URLFinder.cpp lines 113–151):
UpdateUI with the VScroll flag, Modified with InsertText or DeleteText, and
Zoom all restart the timer; a Ctrl + indicator click starts click handling. -/
def notifyAction : Notif → DecoratorAction
  | .updateUI v => if v then .restartTimer else .noOp
  | .modified ins del => if ins || del then .restartTimer else .noOp
  | .zoom => .restartTimer
  | .indicatorClick ctrl p => if ctrl then .click p else .noOp
  | .other => .noOp

/-- The five re-scan trigger events of the scheduler. -/
inductive ScanTrigger where
  | resized
  | vscroll
  | zoom
  | insertText
  | deleteText
  deriving Repr, DecidableEq

/-- The decorator's reaction to each trigger event: the `resized` signal is
wired straight to `timer->start()` in the constructor (URLFinder.cpp line
41); the other four arrive through URLFinder::notify. -/
def triggerAction : ScanTrigger → DecoratorAction
  | .resized => .restartTimer
  | .vscroll => notifyAction (.updateUI true)
  | .zoom => notifyAction .zoom
  | .insertText => notifyAction (.modified true false)
  | .deleteText => notifyAction (.modified false true)

/-- The debounce delay: `timer->setInterval(200)` (URLFinder.cpp line 43). -/
def timerInterval : Nat := 200

/-- Modelled from the spec: restarting the single-shot timer at time `now`
discards any pending deadline and arms a new one a full delay later. -/
def restartTimer (now : Nat) (_pending : Option Nat) : Option Nat :=
  some (now + timerInterval)

/-- Modelled from the spec: run the scheduler over a time-ordered list of
trigger instants, starting from the given pending deadline, and count the
scans.  A pending deadline at or before the next trigger means the single-shot
timer fired (one scan) before that trigger re-armed it; a deadline left
pending at the end fires once. -/
def scansOf : List Nat → Option Nat → Nat
  | [], none => 0
  | [], some _ => 1
  | t :: ts, none => scansOf ts (restartTimer t none)
  | t :: ts, some d => (if d ≤ t then 1 else 0) + scansOf ts (restartTimer t (some d))

/-- What the Ctrl+click handling ends up doing. -/
inductive ClickOutcome where
  | navigate (url : List Char)
  | reportInvalid
  | ignored
  deriving Repr, DecidableEq

/-- Modelled from the spec: the indicator range containing a buffer offset,
if any (the indicatorAllOnFor / indicatorStart / indicatorEnd queries over
the channel's non-overlapping range set). -/
def containingRange (ranges : List (Nat × Nat)) (pos : Nat) : Option (Nat × Nat) :=
  ranges.find? (fun r => r.1 ≤ pos && pos < r.2)

/-- The Ctrl + indicator-click handling of URLFinder::notify (URLFinder.cpp
lines 132–149), with QUrl validity abstracted as the predicate `isValidURL`:
the range's text is validated; a valid URL is sent to the OS handler
(`navigate`), an invalid one is reported (`reportInvalid`) and never opened. -/
def handleIndicatorClick (isValidURL : List Char → Bool) (s : EditorS)
    (ctrl : Bool) (pos : Nat) : ClickOutcome :=
  if ctrl then
    match containingRange s.indic pos with
    | some r =>
      if isValidURL (textRange s.view r.1 r.2) then .navigate (textRange s.view r.1 r.2)
      else .reportInvalid
    | none => .ignored
  else .ignored

/-- A document as NotepadNextApplication::detectLanguage sees it: whether it
is file-backed, its filename suffix, and its buffer bytes. -/
structure Doc where
  hasFile : Bool
  suffix : String
  buffer : List Nat
  deriving Repr, DecidableEq

/-- The Lua loop of NotepadNextApplication::detectLanguageFromExtension
(NotepadNextApplication.cpp lines 352–369): return the first language of the
table whose extension list contains the suffix, defaulting to `"Text"`. -/
def detectLanguageFromExtension (languages : List (String × List String))
    (ext : String) : String :=
  match languages.find? (fun L => L.2.contains ext) with
  | some L => L.1
  | none => "Text"

/-- The Lua chunk of NotepadNextApplication::detectLanguageFromContents
(NotepadNextApplication.cpp lines 371–386): on a nonempty buffer, classify the
first `min(64, length)` bytes (the Lua global content classifier is abstracted
as `classify`); an empty buffer yields `"Text"`. -/
def detectLanguageFromContents (classify : List Nat → String)
    (buffer : List Nat) : String :=
  if 0 < buffer.length then classify (buffer.take (min 64 buffer.length))
  else "Text"

/-- NotepadNextApplication::detectLanguage (NotepadNextApplication.cpp lines
335–350): start from `"Text"`; a file-backed document first resolves by
extension; whenever the name so far is `"Text"`, resolve from the contents. -/
def detectLanguage (languages : List (String × List String))
    (classify : List Nat → String) (doc : Doc) : String :=
  let name1 := if doc.hasFile then detectLanguageFromExtension languages doc.suffix
               else "Text"
  if name1 = "Text" then detectLanguageFromContents classify doc.buffer
  else name1

/-- A fully visible, unwrapped, unfolded line with the given text. -/
def mkLine (s : String) : LineInfo :=
  ⟨s.toList, true, 1, 0, true⟩

/-- A line with explicit visibility and fold level. -/
def mkFoldLine (s : String) (vis : Bool) (fl : Nat) : LineInfo :=
  ⟨s.toList, vis, 1, fl, true⟩

/-- One line holding the same URL text twice, shown in a one-line viewport;
the first occurrence starts at buffer offset 0. -/
def exDup : Editor :=
  ⟨[mkLine "http://a.io/x http://a.io/x"], 0, 1⟩

/-- A two-line buffer whose second line holds the same URL text twice, both
occurrences at positive buffer offsets. -/
def exDup2 : Editor :=
  ⟨[mkLine "z", mkLine "http://a.io/x http://a.io/x"], 0, 2⟩

/-- A URL enclosed in angle brackets, which the URL grammar leaves outside
the match. -/
def exAngle : Editor :=
  ⟨[mkLine "<http://a.io/x>"], 0, 1⟩

/-- The spec's bracket-trimming example line `(http://a.io/x)`; here the URL
grammar includes the closing parenthesis in the match. -/
def exParen : Editor :=
  ⟨[mkLine "(http://a.io/x)"], 0, 1⟩

/-- A one-line buffer holding a URL, under a viewport reporting zero complete
lines on screen. -/
def exZeroScreen : Editor :=
  ⟨[mkLine " http://a.io/x"], 0, 0⟩

/-- A buffer with no lines at all. -/
def exEmpty : Editor :=
  ⟨[], 0, 5⟩

/-- Thirteen lines where line 5 is a collapsed fold header whose fold spans
lines 5–10 (children at fold-level number 1025, hidden), viewed from display
row 5. -/
def exFold : Editor :=
  ⟨[mkFoldLine "l0" true 1024, mkFoldLine "l1" true 1024, mkFoldLine "l2" true 1024,
    mkFoldLine "l3" true 1024, mkFoldLine "l4" true 1024,
    ⟨"l5".toList, true, 1, 1024 + 8192, false⟩,
    mkFoldLine "l6" false 1025, mkFoldLine "l7" false 1025, mkFoldLine "l8" false 1025,
    mkFoldLine "l9" false 1025, mkFoldLine "l10" false 1025,
    mkFoldLine "l11" true 1024, mkFoldLine "l12" true 1024], 5, 4⟩

theorem findTextAux_sound (hay needle : List Char) (stop : Nat) :
    ∀ fuel i s e, findTextAux hay needle stop fuel i = some (s, e) →
      occursAt hay needle s = true ∧ e = s + needle.length ∧ i ≤ s ∧ e ≤ stop := by
  intro fuel
  induction fuel with
  | zero => intro i s e h; simp [findTextAux] at h
  | succ n ih =>
    intro i s e h
    simp only [findTextAux] at h
    split at h
    · exact absurd h (by simp)
    next h1 =>
      split at h
      next h2 =>
        obtain ⟨rfl, rfl⟩ : i = s ∧ i + needle.length = e := by
          simpa using h
        exact ⟨h2, rfl, Nat.le_refl _, by omega⟩
      next h2 =>
        obtain ⟨ho, he, hi, hs⟩ := ih (i + 1) s e h
        exact ⟨ho, he, by omega, hs⟩

theorem findText_sound (ed : Editor) (needle : List Char) (start stop s e : Nat)
    (h : findText ed needle start stop = some (s, e)) :
    occursAt (fullText ed) needle s = true ∧ e = s + needle.length ∧
      start ≤ s ∧ e ≤ stop :=
  findTextAux_sound (fullText ed) needle stop (stop + 1) start s e h

theorem locatedOccs_sound (ed : Editor) (needle : List Char) (stop : Nat) :
    ∀ fuel i se, se ∈ locatedOccs ed needle stop fuel i →
      occursAt (fullText ed) needle se.1 = true ∧ se.2 = se.1 + needle.length ∧
        i ≤ se.1 ∧ se.2 ≤ stop := by
  intro fuel
  induction fuel with
  | zero => intro i se h; simp [locatedOccs] at h
  | succ n ih =>
    intro i se h
    simp only [locatedOccs] at h
    cases hf : findText ed needle i stop with
    | none => rw [hf] at h; simp at h
    | some p =>
      obtain ⟨s, e⟩ := p
      rw [hf] at h
      obtain ⟨ho, he, hi, hs⟩ := findText_sound ed needle i stop s e hf
      rcases List.mem_cons.mp h with rfl | h2
      · exact ⟨ho, he, hi, hs⟩
      · obtain ⟨ho2, he2, hi2, hs2⟩ := ih e se h2
        exact ⟨ho2, he2, by omega, hs2⟩

theorem locatedOccs_chain (ed : Editor) (needle : List Char) (stop : Nat) :
    ∀ fuel i, List.Chain' (fun a b => a.2 ≤ b.1) (locatedOccs ed needle stop fuel i) := by
  intro fuel
  induction fuel with
  | zero => intro i; simp [locatedOccs]
  | succ n ih =>
    intro i
    simp only [locatedOccs]
    cases hf : findText ed needle i stop with
    | none => simp
    | some p =>
      obtain ⟨s, e⟩ := p
      refine List.chain'_cons'.mpr ⟨?_, ih e⟩
      intro y hy
      exact (locatedOccs_sound ed needle stop n e y (List.mem_of_mem_head? hy)).2.2.1

theorem annotateLoop_eq (ed : Editor) (needle : List Char) (stop : Nat) :
    ∀ fuel i, annotateLoop ed needle stop fuel i =
      ((locatedOccs ed needle stop fuel i).filter
        (fun se => decide (0 < se.1))).map (trimOcc ed) := by
  intro fuel
  induction fuel with
  | zero => intro i; simp [annotateLoop, locatedOccs]
  | succ n ih =>
    intro i
    simp only [annotateLoop, locatedOccs]
    cases hf : findText ed needle i stop with
    | none => simp
    | some p =>
      obtain ⟨s, e⟩ := p
      simp only [List.filter_cons, List.map_cons, ih e]
      by_cases h : 0 < s
      · simp [h]
      · simp [h]

theorem trimOcc_fst (ed : Editor) (se : Nat × Nat) : (trimOcc ed se).1 = se.1 := by
  simp only [trimOcc]
  split <;> rfl

theorem annotateLoop_pos (ed : Editor) (needle : List Char) (stop fuel i : Nat)
    (r : Nat × Nat) (h : r ∈ annotateLoop ed needle stop fuel i) : 0 < r.1 := by
  rw [annotateLoop_eq] at h
  obtain ⟨se, hse, rfl⟩ := List.mem_map.mp h
  have hp := List.of_mem_filter hse
  rw [trimOcc_fst]
  simpa using hp

theorem processLine_pos (ed : Editor) (l : Nat) (r : Nat × Nat)
    (h : r ∈ processLine ed l) : 0 < r.1 := by
  simp only [processLine, List.mem_flatten, List.mem_map] at h
  obtain ⟨L, ⟨t, ht, rfl⟩, hr⟩ := h
  exact annotateLoop_pos _ _ _ _ _ _ hr

theorem scanAux_pos (ed : Editor) :
    ∀ fuel cur budget p, p ∈ scanAux ed fuel cur budget → ∀ r ∈ p.2, 0 < r.1 := by
  intro fuel
  induction fuel with
  | zero => intro cur budget p h; simp [scanAux] at h
  | succ n ih =>
    intro cur budget p h r hr
    simp only [scanAux] at h
    split at h
    · split at h
      · exact ih _ _ _ h r hr
      · rcases List.mem_cons.mp h with rfl | h2
        · exact processLine_pos ed cur r hr
        · exact ih _ _ _ h2 r hr
    · simp at h

theorem lastChildAux_ge (ed : Editor) (lvl : Nat) :
    ∀ fuel k, k ≤ lastChildAux ed lvl k fuel := by
  intro fuel
  induction fuel with
  | zero => intro k; simp [lastChildAux]
  | succ n ih =>
    intro k
    simp only [lastChildAux]
    split
    · exact Nat.le_trans (Nat.le_succ k) (ih (k + 1))
    · exact Nat.le_refl k

theorem lastChild_ge (ed : Editor) (l : Nat) : l ≤ lastChild ed l :=
  lastChildAux_ge ed (levelNum (foldLevel ed l)) (lineCount ed) l

theorem scanAux_mem_ge (ed : Editor) :
    ∀ fuel cur budget p, p ∈ scanAux ed fuel cur budget → cur ≤ p.1 := by
  intro fuel
  induction fuel with
  | zero => intro cur budget p h; simp [scanAux] at h
  | succ n ih =>
    intro cur budget p h
    simp only [scanAux] at h
    split at h
    · split at h
      · exact Nat.le_trans (Nat.le_succ cur) (ih _ _ _ h)
      · rcases List.mem_cons.mp h with rfl | h2
        · exact Nat.le_refl cur
        · have h3 := ih _ _ _ h2
          split at h3
          · have := lastChild_ge ed cur
            omega
          · omega
    · simp at h

theorem firstMatchAux_spec (cs : List Char) :
    ∀ fuel i p len, firstMatchAux cs i fuel = some (p, len) →
      matchFrom cs p = some len ∧ i ≤ p ∧
        ∀ j, i ≤ j → j < p → matchFrom cs j = none := by
  intro fuel
  induction fuel with
  | zero => intro i p len h; simp [firstMatchAux] at h
  | succ n ih =>
    intro i p len h
    simp only [firstMatchAux] at h
    cases hm : matchFrom cs i with
    | some l =>
      rw [hm] at h
      obtain ⟨rfl, rfl⟩ : i = p ∧ l = len := by simpa using h
      exact ⟨hm, Nat.le_refl _, fun j hj1 hj2 => absurd (Nat.lt_of_le_of_lt hj1 hj2)
        (Nat.lt_irrefl _)⟩
    | none =>
      rw [hm] at h
      obtain ⟨hmf, hip, hmin⟩ := ih (i + 1) p len h
      refine ⟨hmf, by omega, ?_⟩
      intro j hj1 hj2
      rcases Nat.eq_or_lt_of_le hj1 with rfl | hlt
      · exact hm
      · exact hmin j hlt hj2

theorem matchedTexts_cases (cs : List Char) :
    matchedTexts cs = (match regexFirstMatch cs with
      | some (i, len) => [(cs.drop i).take len].filter (fun t => !t.isEmpty)
      | none => []) := by
  unfold matchedTexts capturedTexts
  cases regexFirstMatch cs with
  | none => simp [removeDuplicates]
  | some p =>
    obtain ⟨i, len⟩ := p
    simp [removeDuplicates]

theorem scansOf_pending (ts : List Nat) :
    ∀ t, List.Chain' (fun a b => b < a + timerInterval) (t :: ts) →
      scansOf ts (some (t + timerInterval)) = 1 := by
  induction ts with
  | nil => intro t _; rfl
  | cons t2 ts2 ih =>
    intro t hch
    obtain ⟨h1, h2⟩ := List.chain'_cons.mp hch
    simp only [scansOf]
    rw [if_neg (by omega)]
    simpa [restartTimer] using ih t2 h2

/-- C1 (as stated) is false on the code: the matcher runs a single
QRegExp::indexIn and keeps only capturedTexts, so a line carrying two
different URL-shaped substrings yields only the leftmost one.  On the line
`http://a.io/x http://b.io/y`, the substring `http://b.io/y` matches the URL
grammar at offset 14, yet the matcher's output holds only `http://a.io/x`. -/
theorem matchedTexts_two_urls_only_first :
    matchFrom ("http://a.io/x http://b.io/y".toList) 14 = some 13 ∧
    (("http://a.io/x http://b.io/y".toList).drop 14).take 13 = "http://b.io/y".toList ∧
    matchedTexts ("http://a.io/x http://b.io/y".toList) = ["http://a.io/x".toList] ∧
    "http://b.io/y".toList ∉ matchedTexts ("http://a.io/x http://b.io/y".toList) := by
  refine ⟨by decide, by decide, by decide, by decide⟩

/-- C1 (amended): for every line of text, the URL pattern matcher returns at
most one substring — the leftmost match of the URL grammar — with empty
matches excluded; positions left of the returned match admit no match. -/
theorem matchedTexts_at_most_one (cs : List Char) :
    (matchedTexts cs).length ≤ 1 ∧
    ∀ t ∈ matchedTexts cs, t ≠ [] ∧ ∃ p len, regexFirstMatch cs = some (p, len) ∧
      t = (cs.drop p).take len ∧ matchFrom cs p = some len ∧
      ∀ j < p, matchFrom cs j = none := by
  rw [matchedTexts_cases]
  cases hr : regexFirstMatch cs with
  | none => simp
  | some q =>
    obtain ⟨p, len⟩ := q
    dsimp only
    constructor
    · rw [List.filter_cons, List.filter_nil]
      split <;> simp
    · intro t ht
      simp only [List.mem_filter, List.mem_singleton] at ht
      obtain ⟨rfl, hne⟩ := ht
      obtain ⟨hmf, -, hmin⟩ := firstMatchAux_spec cs (cs.length + 1) 0 p len hr
      exact ⟨by simpa using hne, p, len, rfl, rfl, hmf,
        fun j hj => hmin j (Nat.zero_le j) hj⟩

/-- Witness for the amended C1 at a concrete two-URL line. -/
theorem matchedTexts_at_most_one_witness :
    ("http://a.io/x".toList ∈ matchedTexts ("http://a.io/x http://b.io/y".toList)) ∧
    ("http://a.io/x".toList ≠ [] ∧ ∃ p len,
      regexFirstMatch ("http://a.io/x http://b.io/y".toList) = some (p, len) ∧
      "http://a.io/x".toList = (("http://a.io/x http://b.io/y".toList).drop p).take len ∧
      matchFrom ("http://a.io/x http://b.io/y".toList) p = some len ∧
      ∀ j < p, matchFrom ("http://a.io/x http://b.io/y".toList) j = none) :=
  ⟨by decide, (matchedTexts_at_most_one ("http://a.io/x http://b.io/y".toList)).2 _ (by decide)⟩

/-- C2 (as stated) is false on the code: the annotate loop locates the
occurrence of the matched text at buffer offset 0 but the `startUrl > 0`
guard keeps it from being annotated.  On a first line holding
`http://a.io/x http://a.io/x`, both occurrences are located yet only the
second is painted. -/
theorem annotator_skips_offset_zero_occurrence :
    positionFromLine exDup 0 = 0 ∧ lineEndPosition exDup 0 = 27 ∧
    matchedTexts (textRange exDup 0 27) = ["http://a.io/x".toList] ∧
    locatedOccs exDup ("http://a.io/x".toList) 27 28 0 = [(0, 13), (14, 27)] ∧
    occursAt (fullText exDup) ("http://a.io/x".toList) 0 = true ∧
    findURLs exDup = [(14, 27)] := by
  refine ⟨by decide, by decide, by decide, by decide, by decide, by decide⟩

/-- C2 (amended): for each matched text, the loop locates occurrences of that
exact text within the line span by repeated search, each search starting at
the end of the previously found occurrence (so located occurrences are
genuine, in-range, and non-overlapping in sequence), and every located
occurrence whose start offset is positive is annotated (after the endpoint
trim); hence a line containing the same URL text twice at positive offsets
gets both occurrences highlighted. -/
theorem annotateLoop_annotates_located_positive (ed : Editor) (needle : List Char)
    (stop fuel i : Nat) :
    (∀ se ∈ locatedOccs ed needle stop fuel i,
      occursAt (fullText ed) needle se.1 = true ∧ se.2 = se.1 + needle.length ∧
        i ≤ se.1 ∧ se.2 ≤ stop) ∧
    List.Chain' (fun a b => a.2 ≤ b.1) (locatedOccs ed needle stop fuel i) ∧
    (∀ se ∈ locatedOccs ed needle stop fuel i, 0 < se.1 →
      trimOcc ed se ∈ annotateLoop ed needle stop fuel i) := by
  refine ⟨fun se h => locatedOccs_sound ed needle stop fuel i se h,
    locatedOccs_chain ed needle stop fuel i, ?_⟩
  intro se h hpos
  rw [annotateLoop_eq]
  exact List.mem_map_of_mem _ (List.mem_filter.mpr ⟨h, by simpa using hpos⟩)

/-- Witness for the amended C2: on the duplicated-URL line of `exDup2`, the
second occurrence (at positive offset 16) is located and annotated. -/
theorem annotateLoop_annotates_located_positive_witness :
    ((16, 29) ∈ locatedOccs exDup2 ("http://a.io/x".toList) 29 30 2) ∧
    ((2, 15) ∈ locatedOccs exDup2 ("http://a.io/x".toList) 29 30 2) ∧
    ((16, 29) ∈ annotateLoop exDup2 ("http://a.io/x".toList) 29 30 2) := by
  refine ⟨by decide, by decide, ?_⟩
  have h := (annotateLoop_annotates_located_positive exDup2 ("http://a.io/x".toList)
    29 30 2).2.2 (16, 29) (by decide) (by decide)
  have ht : trimOcc exDup2 (16, 29) = (16, 29) := by decide
  rwa [ht] at h

/-- C3 (as stated) is false on the code: the code compares the character
before the occurrence with the occurrence's LAST character
(`charAt(endUrl - 1)`), not with the character immediately following the end.
On the line `<http://a.io/x>`, the annotated occurrence is `[1, 14)`, the
character before it is `<` and the character following its end is `>` — a
matching pair per the claim — yet the painted range is `(1, 14)`, not
`(1, 13)`. -/
theorem trim_checks_last_char_not_following :
    findURLs exAngle = [(1, 14)] ∧
    charAt exAngle 0 = '<' ∧ charAt exAngle 14 = '>' ∧
    pairMatch (charAt exAngle 0) (charAt exAngle 14) = true ∧
    (1, 13) ∉ findURLs exAngle := by
  refine ⟨by decide, by decide, by decide, by decide, by decide⟩

/-- C3 (amended): for every located occurrence `[s, e)` with positive start,
if the character before `s` and the occurrence's last character (at `e - 1`)
form a matching bracket/quote pair, the annotated range is `(s, e - 1)` —
the trailing bracket/quote is excluded; otherwise the full `(s, e)` is
annotated. -/
theorem annotateLoop_trim_rule (ed : Editor) (needle : List Char)
    (stop fuel i s e : Nat)
    (h : (s, e) ∈ locatedOccs ed needle stop fuel i) (hpos : 0 < s) :
    (pairMatch (charAt ed (s - 1)) (charAt ed (e - 1)) = true →
      (s, e - 1) ∈ annotateLoop ed needle stop fuel i) ∧
    (pairMatch (charAt ed (s - 1)) (charAt ed (e - 1)) = false →
      (s, e) ∈ annotateLoop ed needle stop fuel i) := by
  have hmem : trimOcc ed (s, e) ∈ annotateLoop ed needle stop fuel i := by
    rw [annotateLoop_eq]
    exact List.mem_map_of_mem _ (List.mem_filter.mpr ⟨h, by simpa using hpos⟩)
  constructor
  · intro hp
    have ht : trimOcc ed (s, e) = (s, e - 1) := by simp [trimOcc, hp]
    rwa [ht] at hmem
  · intro hp
    have ht : trimOcc ed (s, e) = (s, e) := by simp [trimOcc, hp]
    rwa [ht] at hmem

/-- Witness for the amended C3 at the spec's own example `(http://a.io/x)`:
the match includes the trailing `)`, the pair test fires, and the annotated
range `(1, 14)` excludes the trailing parenthesis. -/
theorem annotateLoop_trim_rule_witness :
    ((1, 15) ∈ locatedOccs exParen ("http://a.io/x)".toList) 15 16 0) ∧
    pairMatch (charAt exParen 0) (charAt exParen 14) = true ∧
    ((1, 14) ∈ annotateLoop exParen ("http://a.io/x)".toList) 15 16 0) := by
  refine ⟨by decide, by decide, ?_⟩
  exact (annotateLoop_trim_rule exParen ("http://a.io/x)".toList) 15 16 0 1 15
    (by decide) (by decide)).1 (by decide)

/-- C4 (as stated) is false on the code: the loop condition is
`linesLeftToProcess >= 0`, so a viewport reporting zero complete lines on
screen still processes the first visible line — on `exZeroScreen`
(`linesOnScreen = 0`) the scan enumerates line 0 and paints a highlight. -/
theorem zero_lines_on_screen_still_scans :
    exZeroScreen.linesOnScreen = 0 ∧
    visitedLines exZeroScreen = [0] ∧
    findURLs exZeroScreen = [(1, 14)] := by
  refine ⟨by decide, by decide, by decide⟩

/-- C4 (amended): a scan pass enumerates no lines and produces no highlights
exactly when no line is available at the viewport start — when the starting
document line is at or beyond the buffer's line count (in particular for a
buffer with no lines); a zero-visible-line viewport over existing lines still
processes one line, covering a partially visible one. -/
theorem scan_empty_when_start_beyond (ed : Editor)
    (h : lineCount ed ≤ startLine ed) :
    visitedLines ed = [] ∧ findURLs ed = [] := by
  have hs : scanResult ed = [] := by
    simp only [scanResult, scanAux]
    rw [if_neg (fun hc => absurd hc.2 (by omega))]
  exact ⟨by simp [visitedLines, hs], by simp [findURLs, hs]⟩

/-- Witness for the amended C4 on a buffer with no lines. -/
theorem scan_empty_when_start_beyond_witness :
    lineCount exEmpty ≤ startLine exEmpty ∧
    (visitedLines exEmpty = [] ∧ findURLs exEmpty = []) :=
  ⟨by decide, scan_empty_when_start_beyond exEmpty (by decide)⟩

/-- C5: when the line iterator reaches a visible line that is a fold header
of a collapsed fold, the scan processes that line and continues in one step
at the line after the fold's last child; every line the scan visits from
there on is either the header itself or lies past the fold's last child —
none of the fold's descendant lines is ever visited. -/
theorem scan_skips_collapsed_fold (ed : Editor) (fuel cur : Nat) (budget : Int)
    (hvis : lineVisible ed cur = true)
    (hhdr : isFoldHeader (foldLevel ed cur) = true)
    (hexp : foldExpanded ed cur = false)
    (hb : 0 ≤ budget) (hc : cur < lineCount ed) :
    scanAux ed (fuel + 1) cur budget =
      (cur, processLine ed cur) ::
        scanAux ed fuel (lastChild ed cur + 1) (budget - (wrapCount ed cur : Int)) ∧
    ∀ p ∈ scanAux ed (fuel + 1) cur budget, p.1 = cur ∨ lastChild ed cur + 1 ≤ p.1 := by
  have heq : scanAux ed (fuel + 1) cur budget =
      (cur, processLine ed cur) ::
        scanAux ed fuel (lastChild ed cur + 1) (budget - (wrapCount ed cur : Int)) := by
    simp only [scanAux]
    rw [if_pos ⟨hb, hc⟩]
    simp [hvis, hhdr, hexp]
  refine ⟨heq, ?_⟩
  intro p hp
  rw [heq] at hp
  rcases List.mem_cons.mp hp with rfl | h2
  · exact Or.inl rfl
  · exact Or.inr (scanAux_mem_ge ed fuel _ _ p h2)

/-- Witness for C5 on `exFold`: line 5 heads a collapsed fold whose last
child is line 10; the scan yields line 5 then jumps to line 11, never
visiting lines 6–10. -/
theorem scan_skips_collapsed_fold_witness :
    lineVisible exFold 5 = true ∧ isFoldHeader (foldLevel exFold 5) = true ∧
    foldExpanded exFold 5 = false ∧ lastChild exFold 5 = 10 ∧
    visitedLines exFold = [5, 11, 12] ∧
    (scanAux exFold (12 + 1) 5 4 =
      (5, processLine exFold 5) ::
        scanAux exFold 12 (lastChild exFold 5 + 1) (4 - (wrapCount exFold 5 : Int)) ∧
    ∀ p ∈ scanAux exFold (12 + 1) 5 4, p.1 = 5 ∨ lastChild exFold 5 + 1 ≤ p.1) := by
  refine ⟨by decide, by decide, by decide, by decide, by decide, ?_⟩
  exact scan_skips_collapsed_fold exFold 12 5 4 (by decide) (by decide) (by decide)
    (by decide) (by decide)

/-- C6: every one of the five trigger events restarts the single-shot 200 ms
timer rather than queuing a scan, and when all the triggers of a burst fall
within one delay window of their predecessor, exactly one scan runs — the
single firing of the pending timer. -/
theorem debounce_coalesces :
    (∀ tr : ScanTrigger, triggerAction tr = DecoratorAction.restartTimer) ∧
    ∀ t ts, List.Chain' (fun a b => b < a + timerInterval) (t :: ts) →
      scansOf (t :: ts) none = 1 := by
  constructor
  · intro tr; cases tr <;> rfl
  · intro t ts hch
    simp only [scansOf, restartTimer]
    exact scansOf_pending ts t hch

/-- Witness for C6: three triggers at times 0, 100, 150 — each within the
delay window of the previous — produce exactly one scan. -/
theorem debounce_coalesces_witness :
    List.Chain' (fun a b => b < a + timerInterval) [0, 100, 150] ∧
    scansOf [0, 100, 150] none = 1 := by
  have hch : List.Chain' (fun a b => b < a + timerInterval) [0, 100, 150] := by
    norm_num [List.chain'_cons, List.chain'_singleton, timerInterval]
  exact ⟨hch, debounce_coalesces.2 0 [100, 150] hch⟩

/-- C7: a file-backed document resolves by extension first and falls back to
content resolution exactly when extension resolution yields `"Text"`; a
pathless document goes straight to content resolution; and content
resolution depends only on the first 64 bytes of the buffer. -/
theorem detectLanguage_resolution_order (languages : List (String × List String))
    (classify : List Nat → String) (doc : Doc) :
    (doc.hasFile = false →
      detectLanguage languages classify doc = detectLanguageFromContents classify doc.buffer) ∧
    (doc.hasFile = true → detectLanguageFromExtension languages doc.suffix ≠ "Text" →
      detectLanguage languages classify doc = detectLanguageFromExtension languages doc.suffix) ∧
    (doc.hasFile = true → detectLanguageFromExtension languages doc.suffix = "Text" →
      detectLanguage languages classify doc = detectLanguageFromContents classify doc.buffer) ∧
    detectLanguageFromContents classify doc.buffer =
      detectLanguageFromContents classify (doc.buffer.take 64) := by
  refine ⟨?_, ?_, ?_, ?_⟩
  · intro h; simp [detectLanguage, h]
  · intro h1 h2; simp [detectLanguage, h1, h2]
  · intro h1 h2; simp [detectLanguage, h1, h2]
  · unfold detectLanguageFromContents
    have hlen : (doc.buffer.take 64).length = min 64 doc.buffer.length :=
      List.length_take 64 doc.buffer
    by_cases h : 0 < doc.buffer.length
    · rw [if_pos h, if_pos (show 0 < (doc.buffer.take 64).length by omega)]
      have harg : (doc.buffer.take 64).take (min 64 (doc.buffer.take 64).length)
          = doc.buffer.take (min 64 doc.buffer.length) := by
        rw [hlen, List.take_take]
        congr 1
        omega
      rw [harg]
    · rw [if_neg h, if_neg (show ¬ 0 < (doc.buffer.take 64).length by omega)]

/-- Witness for C7: a pathless document is resolved from its contents. -/
theorem detectLanguage_resolution_order_witness :
    (Doc.mk false "py" [104, 105]).hasFile = false ∧
    detectLanguage [("Python", ["py"])] (fun _ => "Shell") (Doc.mk false "py" [104, 105]) =
      detectLanguageFromContents (fun _ => "Shell") [104, 105] :=
  ⟨rfl, (detectLanguage_resolution_order [("Python", ["py"])] (fun _ => "Shell")
    (Doc.mk false "py" [104, 105])).1 rfl⟩

/-- C8: a Ctrl+click on an indicator range navigates only when the range's
text passes URL validation — an outcome of `navigate u` implies `u` was
validated; when validation fails the outcome is the non-fatal report and no
navigation; when it succeeds the platform is asked to open the text. -/
theorem click_navigates_only_valid (isValidURL : List Char → Bool) (s : EditorS)
    (ctrl : Bool) (pos : Nat) :
    (∀ u, handleIndicatorClick isValidURL s ctrl pos = ClickOutcome.navigate u →
      isValidURL u = true) ∧
    (∀ r, containingRange s.indic pos = some r → ctrl = true →
      isValidURL (textRange s.view r.1 r.2) = false →
      handleIndicatorClick isValidURL s ctrl pos = ClickOutcome.reportInvalid) ∧
    (∀ r, containingRange s.indic pos = some r → ctrl = true →
      isValidURL (textRange s.view r.1 r.2) = true →
      handleIndicatorClick isValidURL s ctrl pos =
        ClickOutcome.navigate (textRange s.view r.1 r.2)) := by
  refine ⟨?_, ?_, ?_⟩
  · intro u h
    unfold handleIndicatorClick at h
    by_cases hc : ctrl = true
    · rw [if_pos hc] at h
      cases hr : containingRange s.indic pos with
      | none => rw [hr] at h; simp at h
      | some r =>
        rw [hr] at h
        dsimp only at h
        by_cases hv : isValidURL (textRange s.view r.1 r.2) = true
        · rw [if_pos hv] at h
          obtain rfl : textRange s.view r.1 r.2 = u := by simpa using h
          exact hv
        · rw [if_neg hv] at h
          simp at h
    · rw [if_neg hc] at h
      simp at h
  · intro r hr hc hv
    simp [handleIndicatorClick, hc, hr, hv]
  · intro r hr hc hv
    simp [handleIndicatorClick, hc, hr, hv]

/-- Witness for C8: with a validator rejecting everything, a Ctrl+click on
the highlighted range reports the invalid URL and does not navigate. -/
theorem click_navigates_only_valid_witness :
    containingRange [(1, 14)] 2 = some (1, 14) ∧
    handleIndicatorClick (fun _ => false) (EditorS.mk exParen [(1, 14)]) true 2 =
      ClickOutcome.reportInvalid :=
  ⟨rfl, (click_navigates_only_valid (fun _ => false) (EditorS.mk exParen [(1, 14)])
    true 2).2.1 (1, 14) rfl rfl rfl⟩

/-- C9: a full scan pass clears all prior indicator ranges and recomputes
them from the buffer and viewport alone, so running it twice in a row on an
unchanged buffer gives identical indicator state, and the resulting ranges do
not depend on the indicator state the scan started from. -/
theorem scan_idempotent (s : EditorS) :
    runScan (runScan s) = runScan s ∧
    ∀ s2 : EditorS, s2.view = s.view → (runScan s2).indic = (runScan s).indic := by
  constructor
  · rfl
  · intro s2 h
    simp [runScan, indicatorClearAll, h]

/-- Witness for C9: two states sharing a view but with different stale
indicator ranges scan to the same indicator state. -/
theorem scan_idempotent_witness :
    (EditorS.mk exParen [(5, 6)]).view = (EditorS.mk exParen []).view ∧
    (runScan (EditorS.mk exParen [(5, 6)])).indic = (runScan (EditorS.mk exParen [])).indic :=
  ⟨rfl, (scan_idempotent (EditorS.mk exParen [])).2 (EditorS.mk exParen [(5, 6)]) rfl⟩

/-- C10: every indicator range a scan pass writes starts at buffer offset 1
or greater — annotation is guarded by `startUrl > 0`, so an occurrence
starting at offset 0 is never painted. -/
theorem indicator_ranges_start_positive (ed : Editor) (r : Nat × Nat)
    (h : r ∈ findURLs ed) : 1 ≤ r.1 := by
  simp only [findURLs, List.mem_flatten, List.mem_map] at h
  obtain ⟨L, ⟨p, hp, rfl⟩, hr⟩ := h
  exact scanAux_pos ed _ _ _ p hp r hr

/-- Witness for C10: the one range painted on `exDup` starts at offset 14. -/
theorem indicator_ranges_start_positive_witness :
    ((14, 27) ∈ findURLs exDup) ∧ 1 ≤ (14, 27).1 :=
  ⟨by decide, indicator_ranges_start_positive exDup (14, 27) (by decide)⟩

end NotepadNext
